import Mathlib

/-!
Shallow embedding of the native culling core of sodium-fabric
(src/native/core/src/region.rs and src/native/core/src/graph/mod.rs),
together with proofs about the claims of the specification.

Machine integers are modelled as `Nat` / `Int` (coordinates as `Fin 256`
triples, which is exactly wrapping `u8` arithmetic).  Modules of the
repository that are not part of the given sources (graph/local,
graph/octree, graph/visibility, collections) are modelled from the spec;
each such definition carries a doc comment saying so.
-/

/-! ## Directions and visibility data -/

/-- Modelled from the spec: graph/visibility.rs is not in the sources.
A graph direction is one of the six axis directions
{+X, -X, +Y, -Y, +Z, -Z}. -/
inductive GraphDirection where
  | PosX | NegX | PosY | NegY | PosZ | NegZ
  deriving DecidableEq, Fintype, Repr

/-- Modelled from the spec: `opposite()` toggles the sign of the axis. -/
def GraphDirection.opposite : GraphDirection → GraphDirection
  | .PosX => .NegX
  | .NegX => .PosX
  | .PosY => .NegY
  | .NegY => .PosY
  | .PosZ => .NegZ
  | .NegZ => .PosZ

instance : Inhabited GraphDirection := ⟨.PosX⟩

/-- Modelled from the spec: a `GraphDirectionSet` is a 6-bit set of
directions; we model it as a `Finset`. -/
abbrev GraphDirectionSet := Finset GraphDirection

/-- Modelled from the spec: the empty direction set (NONE). -/
def GraphDirectionSet.NONE : GraphDirectionSet := ∅

/-- Modelled from the spec: the full direction set (ALL). -/
def GraphDirectionSet.ALL : GraphDirectionSet := Finset.univ

/-- Modelled from the spec: a fixed iteration order for a direction set. -/
def dirList : List GraphDirection :=
  [.PosX, .NegX, .PosY, .NegY, .PosZ, .NegZ]

/-- Modelled from the spec: `VisibilityData` stores, for each of the six
possible entry directions, the set of exit directions a sight-line can
reach through the section interior. -/
structure VisibilityData where
  table : GraphDirection → GraphDirectionSet

/-- Modelled from the spec: the default visibility data has all rows
empty (fully opaque to the BFS). -/
instance : Inhabited VisibilityData := ⟨⟨fun _ => ∅⟩⟩

/-- Modelled from the spec:
`get_outgoing_directions(incoming) = union over d in incoming of table[d]`. -/
def VisibilityData.get_outgoing_directions (v : VisibilityData)
    (incoming : GraphDirectionSet) : GraphDirectionSet :=
  incoming.biUnion v.table

/-! ## Coordinates -/

/-- A `u8x3` vector of local section coordinates; `Fin 256` components give
exactly wrapping `u8` arithmetic. -/
structure u8x3 where
  x : Fin 256
  y : Fin 256
  z : Fin 256
  deriving DecidableEq, Fintype, Repr

/-- An `i32x3` vector.  The sources only ever add small offsets to region
coordinates, far from `i32` overflow, so plain `Int` components are
faithful. -/
structure Int3 where
  x : Int
  y : Int
  z : Int
  deriving DecidableEq, Repr

/-- Modelled from the spec: the six immediate level-0 neighbors of a
section (`get_all_neighbors` of the missing graph/local module), stepping
one section along the axis with wrap-around inside the 256-cube window. -/
def u8x3.neighbor (c : u8x3) : GraphDirection → u8x3
  | .PosX => ⟨c.x + 1, c.y, c.z⟩
  | .NegX => ⟨c.x - 1, c.y, c.z⟩
  | .PosY => ⟨c.x, c.y + 1, c.z⟩
  | .NegY => ⟨c.x, c.y - 1, c.z⟩
  | .PosZ => ⟨c.x, c.y, c.z + 1⟩
  | .NegZ => ⟨c.x, c.y, c.z - 1⟩

/-! ## Bounds checking and the coordinate context -/

/-- Result of testing a node against the frustum and fog volume
(graph/local module, used by `Graph::check_node`). -/
inductive BoundsCheckResult where
  | Outside | Inside | Partial
  deriving DecidableEq, Repr

/-- Modelled from the spec: the opaque coordinate-context collaborator.
`test_node` takes the level and the node coordinate at that level (a
level-L node with coordinate `c` contains the sections `s` with
`s >>> L = c` componentwise). -/
structure LocalCoordContext where
  camera_section_index : u8x3
  origin_region_coords : Int3
  iter_start_index : Nat × Nat × Nat
  level_3_node_iter_counts : Nat × Nat × Nat
  test_node : Nat → Nat × Nat × Nat → BoundsCheckResult
  get_valid_directions : u8x3 → GraphDirectionSet

/-! ## Region indices (region.rs) -/

def SECTIONS_IN_REGION : Nat := 8 * 4 * 8

def REGIONS_IN_GRAPH : Nat := (256 / 8) * (256 / 4) * (256 / 8)

def REGION_COORD_SHIFT_X : Nat := 3
def REGION_COORD_SHIFT_Y : Nat := 2
def REGION_COORD_SHIFT_Z : Nat := 3

def REGION_MASK_X : Nat := 0b11111000
def REGION_MASK_Y : Nat := 0b11111100
def REGION_MASK_Z : Nat := 0b11111000

namespace LocalRegionIndex

def X_MASK_SINGLE : Nat := 0b11111000
def Y_MASK_SINGLE : Nat := 0b11111100
def Z_MASK_SINGLE : Nat := 0b11111000

def X_MASK_SHIFT_LEFT : Nat := 8
def Y_MASK_SHIFT_LEFT : Nat := 3
def Z_MASK_SHIFT_RIGHT : Nat := 3

/-- `LocalRegionIndex::from_local_section` of region.rs.  In the Rust
source the expression is
`(coord.cast() & masks << [8, 3, 0] >> [0, 0, 3]).reduce_or()`
(with per-lane masks and shifts); since Rust shifts bind tighter than
`&`, each lane computes `coord & (mask << shift)` before the trailing
per-lane right shift, which is reproduced verbatim here. -/
def from_local_section (c : u8x3) : Nat :=
  ((c.x.val &&& (X_MASK_SINGLE <<< X_MASK_SHIFT_LEFT)) >>> 0) |||
    ((c.y.val &&& (Y_MASK_SINGLE <<< Y_MASK_SHIFT_LEFT)) >>> 0) |||
    ((c.z.val &&& (Z_MASK_SINGLE <<< 0)) >>> Z_MASK_SHIFT_RIGHT)

end LocalRegionIndex

namespace RegionSectionIndex

def X_MASK_SINGLE : Nat := 0b00000111
def Y_MASK_SINGLE : Nat := 0b00000011
def Z_MASK_SINGLE : Nat := 0b00000111

def X_MASK_SHIFT : Nat := 5
def Y_MASK_SHIFT : Nat := 0
def Z_MASK_SHIFT : Nat := 2

/-- `RegionSectionIndex::from_local_section` of region.rs.  The Rust
expression is `(coord & masks << shifts).reduce_or()`; shifts bind
tighter than `&`, so each lane computes `coord & (mask << shift)`,
reproduced verbatim here. -/
def from_local_section (c : u8x3) : Nat :=
  (c.x.val &&& (X_MASK_SINGLE <<< X_MASK_SHIFT)) |||
    (c.y.val &&& (Y_MASK_SINGLE <<< Y_MASK_SHIFT)) |||
    (c.z.val &&& (Z_MASK_SINGLE <<< Z_MASK_SHIFT))

end RegionSectionIndex

/-! ## Region render lists (region.rs) -/

/-- `RegionRenderList` of region.rs.  The source buckets sections by
render-category flags into three `CInlineVec`s of packed
`RegionSectionIndex` values, but the per-section flag array is commented
out in the given sources and the BFS loop calls `add_section` with the
local section coordinate only; following the spec (pass ALL when flags
are elided, so every section lands in every bucket) the three identical
buckets are modelled as the single list `sections`, storing the local
coordinate from which the packed `RegionSectionIndex` of each entry is
derived by `RegionSectionIndex.from_local_section`. -/
structure RegionRenderList where
  region_coords : Int3
  sections : List u8x3
  deriving DecidableEq, Repr

namespace RegionRenderList

/-- `RegionRenderList::UNDEFINED_REGION_COORDS = i32x3::splat(i32::MIN)`. -/
def UNDEFINED_REGION_COORDS : Int3 := ⟨-2147483648, -2147483648, -2147483648⟩

/-- `RegionRenderList::add_section`. -/
def add_section (rl : RegionRenderList) (local_section_coord : u8x3) :
    RegionRenderList :=
  { rl with sections := rl.sections ++ [local_section_coord] }

/-- `RegionRenderList::is_initialized`. -/
def is_initialized (rl : RegionRenderList) : Bool :=
  decide (rl.region_coords ≠ UNDEFINED_REGION_COORDS)

/-- `RegionRenderList::initialize` (renamed `init` here; it overwrites the
region coordinates of the slot). -/
def init (rl : RegionRenderList) (region_coords : Int3) :
    RegionRenderList :=
  { rl with region_coords := region_coords }

/-- `RegionRenderList::is_empty`. -/
def is_empty (rl : RegionRenderList) : Bool :=
  rl.sections.isEmpty

/-- `RegionRenderList::clear`. -/
def clear (_rl : RegionRenderList) : RegionRenderList :=
  { region_coords := UNDEFINED_REGION_COORDS, sections := [] }

/-- `RegionRenderList::default()`. -/
def default : RegionRenderList :=
  { region_coords := UNDEFINED_REGION_COORDS, sections := [] }

end RegionRenderList

/-- `StagingRegionRenderLists` of region.rs: a region table indexed by
`LocalRegionIndex` plus the first-touch ordered list of region indices.
The fixed array of `REGIONS_IN_GRAPH` slots is modelled as a total
function from the index. -/
structure StagingRegionRenderLists where
  ordered_region_indices : List Nat
  region_render_lists : Nat → RegionRenderList

namespace StagingRegionRenderLists

/-- The global region coordinates computed inside
`StagingRegionRenderLists::touch_region`:
`origin_region_coords + (local_section_coord & REGION_MASK >> REGION_COORD_SHIFT).cast()`.
Rust shifts bind tighter than `&`, so each lane computes
`coord & (mask >> shift)`, reproduced verbatim here. -/
def global_region_coords (coord_context : LocalCoordContext)
    (local_section_coord : u8x3) : Int3 :=
  ⟨coord_context.origin_region_coords.x +
      Int.ofNat (local_section_coord.x.val &&& (REGION_MASK_X >>> REGION_COORD_SHIFT_X)),
    coord_context.origin_region_coords.y +
      Int.ofNat (local_section_coord.y.val &&& (REGION_MASK_Y >>> REGION_COORD_SHIFT_Y)),
    coord_context.origin_region_coords.z +
      Int.ofNat (local_section_coord.z.val &&& (REGION_MASK_Z >>> REGION_COORD_SHIFT_Z))⟩

/-- `StagingRegionRenderLists::touch_region`.  The source returns a
mutable handle to the slot; the model returns the updated staging
structure together with the slot index.  Note the branch condition of the
source is kept verbatim: the initialize-and-append arm runs when
`is_initialized()` returns true, and the not-initialized arm only
executes the debug assertion (a no-op in release builds). -/
def touch_region (st : StagingRegionRenderLists)
    (coord_context : LocalCoordContext) (local_section_coord : u8x3) :
    StagingRegionRenderLists × Nat :=
  let local_region_index := LocalRegionIndex.from_local_section local_section_coord
  let region_render_list := st.region_render_lists local_region_index
  let coords := global_region_coords coord_context local_section_coord
  if region_render_list.is_initialized then
    ({ ordered_region_indices := st.ordered_region_indices ++ [local_region_index],
       region_render_lists :=
         Function.update st.region_render_lists local_region_index
           (region_render_list.init coords) },
      local_region_index)
  else
    (st, local_region_index)

/-- `StagingRegionRenderLists::compile_render_lists`: iterate the ordered
region indices and append each non-empty region to the results. -/
def compile_render_lists (st : StagingRegionRenderLists)
    (results : List RegionRenderList) : List RegionRenderList :=
  st.ordered_region_indices.foldl
    (fun acc local_region_index =>
      let render_region_list := st.region_render_lists local_region_index
      if render_region_list.is_empty then acc else acc ++ [render_region_list])
    results

/-- `StagingRegionRenderLists::clear`: empty the ordered list and clear
every slot. -/
def clear (_st : StagingRegionRenderLists) : StagingRegionRenderLists :=
  { ordered_region_indices := [],
    region_render_lists := fun _ => RegionRenderList.default }

/-- The ground staging table: all slots un-initialised, no ordered
indices (the state produced by `init_default_in_place` and by `clear`). -/
def ground : StagingRegionRenderLists :=
  { ordered_region_indices := [],
    region_render_lists := fun _ => RegionRenderList.default }

end StagingRegionRenderLists

/-! ## BFS queue capacity (graph/mod.rs) -/

def MAX_VIEW_DISTANCE : Nat := 127
def MAX_WORLD_HEIGHT : Nat := 254

/-- `get_bfs_queue_max_size` of graph/mod.rs.  `u8::div_ceil(2)` is
`(h + 1) / 2`; all intermediate values stay far below the `u32` range for
the claimed parameter ranges, so `Nat` arithmetic is faithful (`Nat`
subtraction only occurs where the source values cannot underflow). -/
def get_bfs_queue_max_size (section_render_distance world_height : Nat) : Nat :=
  let max_height_traversal := (world_height + 1) / 2 - 1
  let max_width_traversal := section_render_distance
  let start : Nat × Nat :=
    if max_height_traversal < max_width_traversal then
      (0, max_width_traversal - max_height_traversal)
    else
      (2, 1)
  let count := start.1
  let layer_index := start.2
  let count := count + 4 * (max_width_traversal - layer_index) *
    (max_width_traversal + layer_index - 1)
  count + max_width_traversal * 4

def BFS_QUEUE_SIZE : Nat := get_bfs_queue_max_size MAX_VIEW_DISTANCE MAX_WORLD_HEIGHT

/-! ## Hierarchical frustum and fog pass (graph/mod.rs + octree model) -/

/-- Modelled from the spec: the level-L node with node coordinate `c`
contains exactly the sections `s` with `s >>> L = c` componentwise (the
hierarchical index packs the high bits of x/y/z; graph/local/coord.rs is
not in the sources). -/
def nodeContains (L : Nat) (c : Nat × Nat × Nat) (s : u8x3) : Prop :=
  s.x.val >>> L = c.1 ∧ s.y.val >>> L = c.2.1 ∧ s.z.val >>> L = c.2.2

instance (L : Nat) (c : Nat × Nat × Nat) (s : u8x3) :
    Decidable (nodeContains L c s) := by
  unfold nodeContains; infer_instance

/-- Modelled from the spec: `LinearBitOctree::set(index<L>, true)` sets
every section bit inside the level-L node (the octree stores one bit per
section and a level-L set covers the node's whole aligned range;
graph/octree.rs is not in the sources).  The bitmap is modelled as a
total function from sections to `Bool`. -/
def setNodeBits (L : Nat) (c : Nat × Nat × Nat) (vis : u8x3 → Bool) :
    u8x3 → Bool :=
  fun s => if nodeContains L c s then true else vis s

/-- Modelled from the spec: `iter_lower_nodes` yields the 8 children of a
level-(L+1) node as level-L nodes; the child node coordinates are
`2*c + delta` with `delta` ranging over `{0,1}^3`. -/
def childNodes (c : Nat × Nat × Nat) : List (Nat × Nat × Nat) :=
  [(2 * c.1, 2 * c.2.1, 2 * c.2.2),
   (2 * c.1, 2 * c.2.1, 2 * c.2.2 + 1),
   (2 * c.1, 2 * c.2.1 + 1, 2 * c.2.2),
   (2 * c.1, 2 * c.2.1 + 1, 2 * c.2.2 + 1),
   (2 * c.1 + 1, 2 * c.2.1, 2 * c.2.2),
   (2 * c.1 + 1, 2 * c.2.1, 2 * c.2.2 + 1),
   (2 * c.1 + 1, 2 * c.2.1 + 1, 2 * c.2.2),
   (2 * c.1 + 1, 2 * c.2.1 + 1, 2 * c.2.2 + 1)]

/-- `Graph::check_node` of graph/mod.rs: test the node against frustum
and fog; `Outside` does nothing, `Inside` sets the whole subtree of the
visible bitmap, `Partial` descends to the 8 children (or sets the single
bit at level 0). -/
def check_node (ctx : LocalCoordContext) :
    Nat → Nat × Nat × Nat → (u8x3 → Bool) → u8x3 → Bool
  | 0, c, vis =>
    match ctx.test_node 0 c with
    | .Outside => vis
    | .Inside => setNodeBits 0 c vis
    | .Partial => setNodeBits 0 c vis
  | L + 1, c, vis =>
    match ctx.test_node (L + 1) c with
    | .Outside => vis
    | .Inside => setNodeBits (L + 1) c vis
    | .Partial => (childNodes c).foldl (fun v c' => check_node ctx L c' v) vis

/-- The rectangular sweep of level-3 nodes traversed by
`Graph::frustum_and_fog_cull`: starting at `iter_start_index` and
stepping `inc_x`/`inc_y`/`inc_z` for the given counts.  Level-3 node
coordinates live in `[0, 32)` per axis and the neighbor increments wrap
inside the window (graph/local is not in the sources; the wrap is
modelled from the spec). -/
def sweep_nodes (ctx : LocalCoordContext) : List (Nat × Nat × Nat) :=
  (List.range ctx.level_3_node_iter_counts.1).flatMap fun i =>
    (List.range ctx.level_3_node_iter_counts.2.1).flatMap fun j =>
      (List.range ctx.level_3_node_iter_counts.2.2).map fun k =>
        ((ctx.iter_start_index.1 + i) % 32,
          (ctx.iter_start_index.2.1 + j) % 32,
          (ctx.iter_start_index.2.2 + k) % 32)

/-- `Graph::frustum_and_fog_cull`: run `check_node` at level 3 over the
sweep, accumulating into the visible bitmap. -/
def frustum_and_fog_cull_bits (ctx : LocalCoordContext) (vis : u8x3 → Bool) :
    u8x3 → Bool :=
  (sweep_nodes ctx).foldl (fun v n => check_node ctx 3 n v) vis

/-! ## BFS and occlusion pass (graph/mod.rs) -/

/-- The mutable state threaded through the BFS loop body: the
`incoming_directions` table, the staging render lists, the current write
queue, and a ghost log recording every section ever pushed onto a queue
(the log is not part of the source state; it only serves the
pushed-at-most-once statement). -/
structure BfsState where
  incoming : u8x3 → GraphDirectionSet
  staging : StagingRegionRenderLists
  write : List u8x3
  log : List u8x3

/-- Mutation of the region slot through the handle returned by
`touch_region`: `region_render_list.add_section(local_section_coords)`. -/
def add_section_at (st : StagingRegionRenderLists) (lri : Nat) (c : u8x3) :
    StagingRegionRenderLists :=
  { st with region_render_lists :=
      (Function.update st.region_render_lists lri
        ((st.region_render_lists lri).add_section c)) }

/-- One iteration of the `for direction in section_outgoing_directions`
loop of `Graph::bfs_and_occlusion_cull`: enqueue the neighbor if its
incoming-direction set is empty, and unconditionally add the opposite
direction to that set. -/
def process_direction (st : BfsState) (idx : u8x3) (d : GraphDirection) :
    BfsState :=
  let neighbor_index := idx.neighbor d
  let current_incoming_direction := d.opposite
  let neighbor_incoming_directions := st.incoming neighbor_index
  let should_enqueue : Bool := decide (neighbor_incoming_directions = ∅)
  let st' : BfsState :=
    { st with incoming :=
        (Function.update st.incoming neighbor_index
          (insert current_incoming_direction neighbor_incoming_directions)) }
  if should_enqueue then
    { st' with write := st'.write ++ [neighbor_index],
               log := st'.log ++ [neighbor_index] }
  else st'

/-- The body of the inner `while let Some(..) = read_queue.pop()` loop of
`Graph::bfs_and_occlusion_cull`, for one popped section index: touch the
region (before the visibility check), skip the node if its visible bit is
unset, otherwise add it to the region list, compute the outgoing
directions and process each of them. -/
def process_section (ctx : LocalCoordContext) (visData : u8x3 → VisibilityData)
    (vis : u8x3 → Bool) (modifier : GraphDirectionSet)
    (st : BfsState) (idx : u8x3) : BfsState :=
  let touched := st.staging.touch_region ctx idx
  let st : BfsState := { st with staging := touched.1 }
  if vis idx then
    let st : BfsState := { st with staging := add_section_at st.staging touched.2 idx }
    let section_incoming_directions := st.incoming idx
    let section_outgoing_directions :=
      ((visData idx).get_outgoing_directions section_incoming_directions ∪ modifier) ∩
        ctx.get_valid_directions idx
    (dirList.filter (fun d => decide (d ∈ section_outgoing_directions))).foldl
      (fun s d => process_direction s idx d) st
  else st

/-- Drain one read queue (the inner while loop). -/
def process_queue (ctx : LocalCoordContext) (visData : u8x3 → VisibilityData)
    (vis : u8x3 → Bool) (modifier : GraphDirectionSet)
    (st : BfsState) (read : List u8x3) : BfsState :=
  read.foldl (process_section ctx visData vis modifier) st

/-- The outer `while !finished` loop of `Graph::bfs_and_occlusion_cull`,
fuelled: drain the read queue, reset it, swap it with the write queue,
and stop when a whole iteration popped nothing (i.e. the read queue was
empty).  Returns the final state together with the finished flag (`true`
iff the loop reached its natural exit within the given fuel). -/
def bfs_loop (ctx : LocalCoordContext) (visData : u8x3 → VisibilityData)
    (vis : u8x3 → Bool) (modifier : GraphDirectionSet) :
    Nat → List u8x3 → BfsState → BfsState × Bool
  | 0, read, st => (st, read.isEmpty)
  | fuel + 1, read, st =>
    if read.isEmpty then (st, true)
    else
      let st' := process_queue ctx visData vis modifier st read
      bfs_loop ctx visData vis modifier fuel st'.write { st' with write := [] }

/-- Fuel that provably suffices for the BFS loop to reach its natural
exit: the number of sections plus two. -/
def BFS_FUEL : Nat := 16777218

/-! ## The graph culler (graph/mod.rs) -/

/-- `BfsCachedState` of graph/mod.rs.  The fixed-capacity `ArrayDeque`
queues (collections module, not in the sources) are modelled as lists
holding their logical contents; `reset` rewinds the head and tail
pointers, i.e. empties the logical contents. -/
structure BfsCachedState where
  incoming_directions : u8x3 → GraphDirectionSet
  staging_render_lists : StagingRegionRenderLists
  queue_1 : List u8x3
  queue_2 : List u8x3

/-- `BfsCachedState::reset`: fill `incoming_directions` with NONE, clear
the staging lists, reset both queues. -/
def BfsCachedState.reset (st : BfsCachedState) : BfsCachedState :=
  { incoming_directions := fun _ => GraphDirectionSet.NONE,
    staging_render_lists := st.staging_render_lists.clear,
    queue_1 := [],
    queue_2 := [] }

/-- `FrustumFogCachedState` of graph/mod.rs: the visible bitmap. -/
structure FrustumFogCachedState where
  section_is_visible_bits : u8x3 → Bool

/-- `FrustumFogCachedState::reset`: clear the bit octree. -/
def FrustumFogCachedState.reset (_st : FrustumFogCachedState) :
    FrustumFogCachedState :=
  { section_is_visible_bits := fun _ => false }

/-- `Graph` of graph/mod.rs (the `section_flag_sets` field is commented
out in the sources). -/
structure Graph where
  section_visibility_direction_sets : u8x3 → VisibilityData
  frustum_fog_cached_state : FrustumFogCachedState
  bfs_cached_state : BfsCachedState
  results : List RegionRenderList

/-- The ground (freshly allocated or just-reset) cached BFS state. -/
def BfsCachedState.ground : BfsCachedState :=
  { incoming_directions := fun _ => GraphDirectionSet.NONE,
    staging_render_lists := StagingRegionRenderLists.ground,
    queue_1 := [],
    queue_2 := [] }

/-- `Graph::frustum_and_fog_cull` as a state transformer. -/
def Graph.frustum_and_fog_cull (g : Graph) (ctx : LocalCoordContext) : Graph :=
  { g with frustum_fog_cached_state :=
      ⟨frustum_and_fog_cull_bits ctx g.frustum_fog_cached_state.section_is_visible_bits⟩ }

/-- The BFS loop invocation performed by `Graph::bfs_and_occlusion_cull`:
pick the directions modifier, seed the read queue with the camera section
and the camera's incoming directions with ALL, then run the queue-swapping
loop. -/
def Graph.bfs_call (g : Graph) (ctx : LocalCoordContext)
    (use_occlusion_culling : Bool) : BfsState × Bool :=
  let directions_modifier :=
    if use_occlusion_culling then GraphDirectionSet.NONE else GraphDirectionSet.ALL
  let initial_node_index := ctx.camera_section_index
  let read0 := g.bfs_cached_state.queue_1 ++ [initial_node_index]
  let incoming0 :=
    Function.update g.bfs_cached_state.incoming_directions initial_node_index
      (g.bfs_cached_state.incoming_directions initial_node_index ∪ GraphDirectionSet.ALL)
  let st0 : BfsState :=
    { incoming := incoming0,
      staging := g.bfs_cached_state.staging_render_lists,
      write := g.bfs_cached_state.queue_2,
      log := [initial_node_index] }
  bfs_loop ctx g.section_visibility_direction_sets
    g.frustum_fog_cached_state.section_is_visible_bits directions_modifier
    BFS_FUEL read0 st0

/-- `Graph::bfs_and_occlusion_cull` as a state transformer.  On natural
exit both the read queue (just reset) and the write queue are empty; the
final queue contents are stored back. -/
def Graph.bfs_and_occlusion_cull (g : Graph) (ctx : LocalCoordContext)
    (use_occlusion_culling : Bool) : Graph :=
  let res := g.bfs_call ctx use_occlusion_culling
  { g with bfs_cached_state :=
      { incoming_directions := res.1.incoming,
        staging_render_lists := res.1.staging,
        queue_1 := [],
        queue_2 := res.1.write } }

/-- `Graph::cull_and_sort`: clear the results, run both passes, compile
the staging lists into the results, then reset both cached states. -/
def Graph.cull_and_sort (g : Graph) (ctx : LocalCoordContext)
    (use_occlusion_culling : Bool) : Graph :=
  let g := { g with results := [] }
  let g := g.frustum_and_fog_cull ctx
  let g := g.bfs_and_occlusion_cull ctx use_occlusion_culling
  let g := { g with results :=
      g.bfs_cached_state.staging_render_lists.compile_render_lists g.results }
  { g with bfs_cached_state := g.bfs_cached_state.reset,
           frustum_fog_cached_state := g.frustum_fog_cached_state.reset }

/-! ## set_section / remove_section (graph/mod.rs) -/

/-- The `i32 -> u8` cast (truncation, i.e. reduction mod 256). -/
def castU8 (n : Int) : Fin 256 :=
  ⟨(n % 256).toNat, by omega⟩

/-- The coordinate translation of `Graph::set_section`: cast the world
section coordinate to `u8` and add the fixed Y offset with wrapping `u8`
addition (`LocalNodeIndex::pack` of the missing graph/local module is a
bijection between local coordinates and packed indices, so the visibility
table is keyed by the coordinate directly).  The constant
`LocalCoordContext::Y_ADD_SECTIONS` lives in the missing graph/local
module; modelled from the spec as a parameter `yAdd` (a fixed integer
offset aligning the world bottom with 0). -/
def local_section_coord_of (yAdd : Fin 256) (section_coord : Int3) : u8x3 :=
  ⟨castU8 section_coord.x, castU8 section_coord.y + yAdd, castU8 section_coord.z⟩

/-- The body of `Graph::set_section` (see `local_section_coord_of` for the
coordinate translation). -/
def Graph.set_section (yAdd : Fin 256) (g : Graph) (section_coord : Int3)
    (visibility_data : VisibilityData) : Graph :=
  { g with section_visibility_direction_sets :=
      (Function.update g.section_visibility_direction_sets
        (local_section_coord_of yAdd section_coord) visibility_data) }

/-- `Graph::remove_section`: `set_section` with the default (all rows
empty) visibility data. -/
def Graph.remove_section (yAdd : Fin 256) (g : Graph) (section_coord : Int3) :
    Graph :=
  g.set_section yAdd section_coord default

/-! ## Concrete instances used by witnesses and counterexamples -/

/-- A minimal concrete coordinate context: camera at the local origin,
origin region coordinates zero, empty sweep, everything tested outside,
no valid directions. -/
def ctx0 : LocalCoordContext :=
  { camera_section_index := ⟨0, 0, 0⟩,
    origin_region_coords := ⟨0, 0, 0⟩,
    iter_start_index := (0, 0, 0),
    level_3_node_iter_counts := (0, 0, 0),
    test_node := fun _ _ => .Outside,
    get_valid_directions := fun _ => ∅ }

/-- A coordinate context whose bounds test accepts every node and whose
level-3 sweep covers the whole 32-cube of level-3 nodes. -/
def ctx_all : LocalCoordContext :=
  { camera_section_index := ⟨0, 0, 0⟩,
    origin_region_coords := ⟨0, 0, 0⟩,
    iter_start_index := (0, 0, 0),
    level_3_node_iter_counts := (32, 32, 32),
    test_node := fun _ _ => .Inside,
    get_valid_directions := fun _ => Finset.univ }

/-- Membership of a section in the view window of distance 1 around the
local origin (wrapping coordinates, so 255 is distance 1 from 0). -/
def inWindow1 (s : u8x3) : Prop :=
  (s.x.val ≤ 1 ∨ s.x.val = 255) ∧ (s.y.val ≤ 1 ∨ s.y.val = 255) ∧
    (s.z.val ≤ 1 ∨ s.z.val = 255)

instance (s : u8x3) : Decidable (inWindow1 s) := by
  unfold inWindow1; infer_instance

/-- The coordinate context of the C7 scenario: camera section at the
local origin, its frustum-and-fog test passing (every node tests
`Inside`), a one-node level-3 sweep covering the camera, and a view
window of distance 1 expressed through the valid-direction mask. -/
def ctx7 : LocalCoordContext :=
  { camera_section_index := ⟨0, 0, 0⟩,
    origin_region_coords := ⟨0, 0, 0⟩,
    iter_start_index := (0, 0, 0),
    level_3_node_iter_counts := (1, 1, 1),
    test_node := fun _ _ => .Inside,
    get_valid_directions := fun c =>
      Finset.univ.filter (fun d => inWindow1 (c.neighbor d)) }

/-- A freshly allocated graph (`Graph::new_boxed` followed by
`init_default_in_place`): default visibility data everywhere, clear
bitmap, ground BFS cached state, empty results. -/
def Graph.ground : Graph :=
  { section_visibility_direction_sets := fun _ => default,
    frustum_fog_cached_state := ⟨fun _ => false⟩,
    bfs_cached_state := BfsCachedState.ground,
    results := [] }

/-- Soundness of a staging table with respect to a visible bitmap: every
section recorded in any region bucket has its visible bit set. -/
def StagingSound (vis : u8x3 → Bool) (st : StagingRegionRenderLists) : Prop :=
  ∀ lri, ∀ s ∈ (st.region_render_lists lri).sections, vis s = true

/-- The push-at-most-once invariant of the BFS state: the ghost log of
pushed sections has no duplicates, every logged section has a non-empty
incoming-direction set, and every write-queue entry has been logged. -/
def BfsLogInv (st : BfsState) : Prop :=
  st.log.Nodup ∧ (∀ n ∈ st.log, st.incoming n ≠ ∅) ∧ (∀ n ∈ st.write, n ∈ st.log)

/-! ## Helper lemmas -/

/-- Closed form of the octahedral ring sum: for a first layer `l = l' + 1`
and `m` rings, `4 * (r - l) * (r + l - 1) = sum of 8 * i for i in [l, r)`
with `r = l + m`. -/
theorem ring_sum_closed (l' m : Nat) :
    4 * m * (2 * l' + m + 1) = ∑ i ∈ Finset.Ico (l' + 1) (l' + 1 + m), 8 * i := by
  induction m with
  | zero => simp
  | succ m ih =>
    rw [show l' + 1 + (m + 1) = (l' + 1 + m) + 1 by omega,
      Finset.sum_Ico_succ_top (by omega), ← ih]
    ring

/-- Unfolding of `get_bfs_queue_max_size` when the world height restricts
the traversal. -/
theorem get_bfs_queue_max_size_height_capped (r h : Nat)
    (hc : (h + 1) / 2 - 1 < r) :
    get_bfs_queue_max_size r h =
      0 + 4 * (r - (r - ((h + 1) / 2 - 1))) * (r + (r - ((h + 1) / 2 - 1)) - 1) + r * 4 := by
  simp [get_bfs_queue_max_size, hc]

/-- Unfolding of `get_bfs_queue_max_size` when the world height does not
restrict the traversal. -/
theorem get_bfs_queue_max_size_tall (r h : Nat)
    (hc : ¬ ((h + 1) / 2 - 1 < r)) :
    get_bfs_queue_max_size r h = 2 + 4 * (r - 1) * (r + 1 - 1) + r * 4 := by
  simp [get_bfs_queue_max_size, hc]

/-! ## Claims -/

/-- C1: the spec requires `touch_region` to initialise a not-yet
initialised slot and append its region index to `ordered_region_indices`,
and to do neither for an initialised slot.  The code's branch condition is
inverted: on the very first touch of the ground staging table (slot not
initialised) it leaves the slot un-initialised and appends nothing. -/
theorem C1_touch_region_divergence :
    (StagingRegionRenderLists.ground.touch_region ctx0 ⟨0, 0, 0⟩).1.ordered_region_indices = [] ∧
    ((StagingRegionRenderLists.ground.touch_region ctx0 ⟨0, 0, 0⟩).1.region_render_lists
      (LocalRegionIndex.from_local_section ⟨0, 0, 0⟩)).is_initialized = false := by
  exact ⟨rfl, by decide⟩

/-- C6: the claim states that two local section coordinates in the same
region (equal after masking with `REGION_MASK`) yield the same global
region coordinates in `touch_region`.  Because Rust shifts bind tighter
than `&`, the code computes `coord & (REGION_MASK >> REGION_COORD_SHIFT)`
and the coordinates (0,0,0) and (1,0,0) — in the same region — receive
different global region coordinates, so the consistency debug assertion
can fire. -/
theorem C6_global_region_coords_divergence :
    ((0 : Nat) &&& REGION_MASK_X = (1 : Nat) &&& REGION_MASK_X ∧
      (0 : Nat) &&& REGION_MASK_Y = (0 : Nat) &&& REGION_MASK_Y ∧
      (0 : Nat) &&& REGION_MASK_Z = (0 : Nat) &&& REGION_MASK_Z) ∧
    StagingRegionRenderLists.global_region_coords ctx0 ⟨0, 0, 0⟩ ≠
      StagingRegionRenderLists.global_region_coords ctx0 ⟨1, 0, 0⟩ := by
  decide

/-- C9: the claim states that `RegionSectionIndex::from_local_section` is
injective on the interior of one region (packing the low 3 bits of x, low
2 bits of y, low 3 bits of z).  Because Rust shifts bind tighter than `&`,
the code masks with the shifted masks instead of shifting the masked
coordinate, and the two coordinates (0,0,0) and (1,0,0) — same region,
differing in the low 3 bits of x — collide. -/
theorem C9_region_section_index_collision :
    ((0 : Nat) &&& REGION_MASK_X = (1 : Nat) &&& REGION_MASK_X ∧
      (0 : Nat) &&& 0b111 ≠ (1 : Nat) &&& 0b111) ∧
    RegionSectionIndex.from_local_section ⟨0, 0, 0⟩ =
      RegionSectionIndex.from_local_section ⟨1, 0, 0⟩ := by
  decide

/-- C7: in the scenario of the claim (default visibility data everywhere,
occlusion culling on, the camera section passing the frustum-and-fog
test, view window of distance 1) the expected output is a single region
render list holding exactly the camera section.  Because of the inverted
branch in `touch_region` the region is never registered in
`ordered_region_indices`: the BFS does record the camera section in the
staging bucket of its region, yet the compiled output is empty. -/
theorem C7_empty_world_scenario_divergence :
    (((Graph.ground.frustum_and_fog_cull ctx7).bfs_call ctx7 true).1.staging.region_render_lists
        (LocalRegionIndex.from_local_section ⟨0, 0, 0⟩)).sections = [⟨0, 0, 0⟩] ∧
    (Graph.ground.cull_and_sort ctx7 true).results = [] := by
  exact ⟨by rfl, by rfl⟩

/-- C5: after any `cull_and_sort` call the cached state is back at its
ground state: the visible bitmap is all-zero, every incoming-direction
set is empty, both queues have logical length zero, and every region slot
of the staging table is un-initialised with `ordered_region_indices`
empty. -/
theorem C5_state_cleanliness (g : Graph) (ctx : LocalCoordContext)
    (use_occlusion_culling : Bool) :
    (g.cull_and_sort ctx use_occlusion_culling).frustum_fog_cached_state.section_is_visible_bits
        = (fun _ => false) ∧
    (g.cull_and_sort ctx use_occlusion_culling).bfs_cached_state.incoming_directions
        = (fun _ => GraphDirectionSet.NONE) ∧
    (g.cull_and_sort ctx use_occlusion_culling).bfs_cached_state.queue_1 = [] ∧
    (g.cull_and_sort ctx use_occlusion_culling).bfs_cached_state.queue_2 = [] ∧
    (g.cull_and_sort ctx use_occlusion_culling).bfs_cached_state.staging_render_lists.ordered_region_indices
        = [] ∧
    ∀ lri, ((g.cull_and_sort ctx use_occlusion_culling).bfs_cached_state.staging_render_lists.region_render_lists
        lri).is_initialized = false := by
  refine ⟨rfl, rfl, rfl, rfl, rfl, fun lri => rfl⟩

/-- C10: `set_section` overwrites only the visibility-data slot of the
section at the translated local coordinate (cast to `u8` with the fixed Y
offset applied); every other section's visibility data, the visible
bitmap, the BFS cached state and the results are unchanged, and
`remove_section` is exactly `set_section` with the default visibility
data. -/
theorem C10_set_section_frame (yAdd : Fin 256) (g : Graph) (c : Int3)
    (v : VisibilityData)
    (hx0 : 0 ≤ c.x) (hx1 : c.x ≤ 255) (hz0 : 0 ≤ c.z) (hz1 : c.z ≤ 255)
    (hy0 : 0 ≤ c.y + yAdd.val) (hy1 : c.y + yAdd.val ≤ 255) :
    (g.set_section yAdd c v).section_visibility_direction_sets
        (local_section_coord_of yAdd c) = v ∧
    (∀ s, s ≠ local_section_coord_of yAdd c →
      (g.set_section yAdd c v).section_visibility_direction_sets s =
        g.section_visibility_direction_sets s) ∧
    (g.set_section yAdd c v).frustum_fog_cached_state = g.frustum_fog_cached_state ∧
    (g.set_section yAdd c v).bfs_cached_state = g.bfs_cached_state ∧
    (g.set_section yAdd c v).results = g.results ∧
    g.remove_section yAdd c = g.set_section yAdd c default := by
  refine ⟨?_, ?_, rfl, rfl, rfl, rfl⟩
  · simp [Graph.set_section]
  · intro s hs
    simp [Graph.set_section, Function.update_noteq hs]

/-- Witness for C10 at the concrete input `yAdd = 0`, `c = (0,0,0)`,
`v = default`, on the ground graph. -/
theorem C10_set_section_frame_witness :
    (Graph.ground.set_section 0 ⟨0, 0, 0⟩ default).section_visibility_direction_sets
        (local_section_coord_of 0 ⟨0, 0, 0⟩) = default ∧
    Graph.ground.remove_section 0 ⟨0, 0, 0⟩ =
      Graph.ground.set_section 0 ⟨0, 0, 0⟩ default := by
  have h := C10_set_section_frame 0 Graph.ground ⟨0, 0, 0⟩ default
    (by decide) (by decide) (by decide) (by decide) (by decide) (by decide)
  exact ⟨h.1, h.2.2.2.2.2⟩

/-- C8: for every render distance in [1, 127] and world height in
[2, 254], `get_bfs_queue_max_size` equals the octahedral ring sum
`base + sum of 8 * i for i in [l, r) + 4 * r` with the base and first
layer chosen by whether the world height caps the traversal, and the
exported `BFS_QUEUE_SIZE` is this function at (127, 254). -/
theorem C8_bfs_queue_size_formula (r h : Nat)
    (hr1 : 1 ≤ r) (hr2 : r ≤ 127) (hh1 : 2 ≤ h) (hh2 : h ≤ 254) :
    get_bfs_queue_max_size r h =
      (if (h + 1) / 2 - 1 < r then 0 else 2) +
        (∑ i ∈ Finset.Ico
          (if (h + 1) / 2 - 1 < r then r - ((h + 1) / 2 - 1) else 1) r, 8 * i) +
        4 * r ∧
    BFS_QUEUE_SIZE = get_bfs_queue_max_size MAX_VIEW_DISTANCE MAX_WORLD_HEIGHT := by
  refine ⟨?_, rfl⟩
  by_cases hc : (h + 1) / 2 - 1 < r
  · rw [get_bfs_queue_max_size_height_capped r h hc, if_pos hc, if_pos hc]
    obtain ⟨l', hl'⟩ : ∃ l', r - ((h + 1) / 2 - 1) = l' + 1 :=
      ⟨r - ((h + 1) / 2 - 1) - 1, by omega⟩
    have e1 : r - (r - ((h + 1) / 2 - 1)) = (h + 1) / 2 - 1 := by omega
    have e2 : r + (r - ((h + 1) / 2 - 1)) - 1 = 2 * l' + ((h + 1) / 2 - 1) + 1 := by
      omega
    have e3 : r = l' + 1 + ((h + 1) / 2 - 1) := by omega
    rw [e1, e2, hl']
    rw [show (Finset.Ico (l' + 1) r) = Finset.Ico (l' + 1) (l' + 1 + ((h + 1) / 2 - 1))
      by rw [← e3]]
    rw [← ring_sum_closed l' ((h + 1) / 2 - 1)]
    ring
  · rw [get_bfs_queue_max_size_tall r h hc, if_neg hc, if_neg hc]
    obtain ⟨m, hm⟩ : ∃ m, r = 1 + m := ⟨r - 1, by omega⟩
    subst hm
    rw [show (Finset.Ico 1 (1 + m)) = Finset.Ico (0 + 1) (0 + 1 + m) by norm_num]
    rw [← ring_sum_closed 0 m,
      show 1 + m - 1 = m by omega, show 1 + m + 1 - 1 = m + 1 by omega]
    ring

/-- Witness for C8 at the concrete input `r = 127`, `h = 254` (the
exported configuration). -/
theorem C8_bfs_queue_size_formula_witness :
    get_bfs_queue_max_size 127 254 =
      (if (254 + 1) / 2 - 1 < 127 then 0 else 2) +
        (∑ i ∈ Finset.Ico
          (if (254 + 1) / 2 - 1 < 127 then 127 - ((254 + 1) / 2 - 1) else 1) 127, 8 * i) +
        4 * 127 :=
  (C8_bfs_queue_size_formula 127 254 (by decide) (by decide) (by decide) (by decide)).1

/-! ## Lemmas about the hierarchical frustum and fog pass (C3) -/

theorem check_node_eq_outside (ctx : LocalCoordContext) (L : Nat)
    (c : Nat × Nat × Nat) (vis : u8x3 → Bool)
    (h : ctx.test_node L c = .Outside) : check_node ctx L c vis = vis := by
  cases L with
  | zero => unfold check_node; rw [h]
  | succ L' => unfold check_node; rw [h]

theorem check_node_eq_inside (ctx : LocalCoordContext) (L : Nat)
    (c : Nat × Nat × Nat) (vis : u8x3 → Bool)
    (h : ctx.test_node L c = .Inside) : check_node ctx L c vis = setNodeBits L c vis := by
  cases L with
  | zero => unfold check_node; rw [h]
  | succ L' => unfold check_node; rw [h]

theorem check_node_eq_partial_zero (ctx : LocalCoordContext)
    (c : Nat × Nat × Nat) (vis : u8x3 → Bool)
    (h : ctx.test_node 0 c = .Partial) : check_node ctx 0 c vis = setNodeBits 0 c vis := by
  unfold check_node; rw [h]

theorem check_node_eq_partial_succ (ctx : LocalCoordContext) (L : Nat)
    (c : Nat × Nat × Nat) (vis : u8x3 → Bool)
    (h : ctx.test_node (L + 1) c = .Partial) :
    check_node ctx (L + 1) c vis =
      (childNodes c).foldl (fun v c' => check_node ctx L c' v) vis := by
  conv_lhs => unfold check_node
  rw [h]

/-- A fold of bit-monotone steps is bit-monotone. -/
theorem foldl_bit_mono {α : Type} (step : (u8x3 → Bool) → α → (u8x3 → Bool))
    (hstep : ∀ v a s, v s = true → step v a s = true) :
    ∀ (l : List α) (v : u8x3 → Bool) (s : u8x3),
      v s = true → (l.foldl step v) s = true := by
  intro l
  induction l with
  | nil => intro v s h; simpa using h
  | cons a t ih => intro v s h; exact ih _ _ (hstep _ _ _ h)

/-- `check_node` only sets bits, it never clears one. -/
theorem check_node_mono (ctx : LocalCoordContext) :
    ∀ (L : Nat) (c : Nat × Nat × Nat) (vis : u8x3 → Bool) (s : u8x3),
      vis s = true → check_node ctx L c vis s = true := by
  intro L
  induction L with
  | zero =>
    intro c vis s h
    cases htest : ctx.test_node 0 c
    · rw [check_node_eq_outside ctx 0 c vis htest]; exact h
    · rw [check_node_eq_inside ctx 0 c vis htest]; simp [setNodeBits, h]
    · rw [check_node_eq_partial_zero ctx c vis htest]; simp [setNodeBits, h]
  | succ L' ih =>
    intro c vis s h
    cases htest : ctx.test_node (L' + 1) c
    · rw [check_node_eq_outside ctx (L' + 1) c vis htest]; exact h
    · rw [check_node_eq_inside ctx (L' + 1) c vis htest]; simp [setNodeBits, h]
    · rw [check_node_eq_partial_succ ctx L' c vis htest]
      exact foldl_bit_mono _ (fun v a s' h' => ih a v s' h') _ _ _ h

/-- Containment at level 0 pins the node coordinate to the section. -/
theorem nodeContains_zero {c : Nat × Nat × Nat} {s : u8x3} :
    nodeContains 0 c s ↔ (s.x.val, s.y.val, s.z.val) = c := by
  obtain ⟨a, b, d⟩ := c
  simp [nodeContains, Prod.ext_iff]

/-- A section inside a child node is inside the parent node. -/
theorem childNodes_contains {L : Nat} {c c' : Nat × Nat × Nat} {s : u8x3}
    (hmem : c' ∈ childNodes c) (hc : nodeContains L c' s) :
    nodeContains (L + 1) c s := by
  obtain ⟨h1, h2, h3⟩ := hc
  refine ⟨?_, ?_, ?_⟩ <;> rw [Nat.shiftRight_succ] <;>
    simp [childNodes] at hmem <;>
    rcases hmem with rfl|rfl|rfl|rfl|rfl|rfl|rfl|rfl <;>
    simp at h1 h2 h3 <;> omega

/-- A section inside a level-(L+1) node is inside one of its 8 children. -/
theorem nodeContains_child {L : Nat} {c : Nat × Nat × Nat} {s : u8x3}
    (hc : nodeContains (L + 1) c s) :
    ∃ c' ∈ childNodes c, nodeContains L c' s := by
  refine ⟨(s.x.val >>> L, s.y.val >>> L, s.z.val >>> L), ?_, rfl, rfl, rfl⟩
  obtain ⟨h1, h2, h3⟩ := hc
  rw [Nat.shiftRight_succ] at h1 h2 h3
  have hx : s.x.val >>> L = 2 * c.1 ∨ s.x.val >>> L = 2 * c.1 + 1 := by omega
  have hy : s.y.val >>> L = 2 * c.2.1 ∨ s.y.val >>> L = 2 * c.2.1 + 1 := by omega
  have hz : s.z.val >>> L = 2 * c.2.2 ∨ s.z.val >>> L = 2 * c.2.2 + 1 := by omega
  simp only [childNodes, List.mem_cons, List.not_mem_nil, or_false]
  rcases hx with hx|hx <;> rcases hy with hy|hy <;> rcases hz with hz|hz <;>
    simp [hx, hy, hz]

/-- Generic soundness of a fold of sound steps. -/
theorem foldl_sound_generic {α : Type} (step : (u8x3 → Bool) → α → (u8x3 → Bool))
    (P : u8x3 → Prop)
    (hstep : ∀ (a : α) (v : u8x3 → Bool) (s : u8x3),
      step v a s = true → v s = true ∨ P s) :
    ∀ (l : List α) (v : u8x3 → Bool) (s : u8x3),
      (l.foldl step v) s = true → v s = true ∨ P s := by
  intro l
  induction l with
  | nil => intro v s h; exact Or.inl (by simpa using h)
  | cons a t ih =>
    intro v s h
    rcases ih _ _ h with h' | h'
    · exact hstep a v s h'
    · exact Or.inr h'

/-- If one list element establishes the bit and every step is monotone,
the fold establishes the bit. -/
theorem foldl_hit {α : Type} (step : (u8x3 → Bool) → α → (u8x3 → Bool))
    (mono : ∀ v a s, v s = true → step v a s = true)
    (a₀ : α) (s : u8x3) (hit : ∀ v, step v a₀ s = true) :
    ∀ (l : List α) (v : u8x3 → Bool), a₀ ∈ l → (l.foldl step v) s = true := by
  intro l
  induction l with
  | nil => intro v h; simp at h
  | cons a t ih =>
    intro v h
    rcases List.mem_cons.mp h with rfl | h'
    · exact foldl_bit_mono step mono t (step v a₀) s (hit v)
    · exact ih _ h'

/-- Soundness of `check_node`: a bit it sets belongs to a section whose
individual level-0 test is not `Outside` (assuming `Inside` results are
consistent). -/
theorem check_node_sound (ctx : LocalCoordContext)
    (Hin : ∀ L c, ctx.test_node L c = .Inside → ∀ s : u8x3, nodeContains L c s →
      ctx.test_node 0 (s.x.val, s.y.val, s.z.val) ≠ .Outside) :
    ∀ (L : Nat) (c : Nat × Nat × Nat) (vis : u8x3 → Bool) (s : u8x3),
      check_node ctx L c vis s = true →
      vis s = true ∨ ctx.test_node 0 (s.x.val, s.y.val, s.z.val) ≠ .Outside := by
  intro L
  induction L with
  | zero =>
    intro c vis s h
    cases htest : ctx.test_node 0 c
    · rw [check_node_eq_outside ctx 0 c vis htest] at h; exact Or.inl h
    · rw [check_node_eq_inside ctx 0 c vis htest] at h
      by_cases hc : nodeContains 0 c s
      · exact Or.inr (Hin 0 c htest s hc)
      · simp [setNodeBits, hc] at h; exact Or.inl h
    · rw [check_node_eq_partial_zero ctx c vis htest] at h
      by_cases hc : nodeContains 0 c s
      · refine Or.inr ?_
        rw [nodeContains_zero.mp hc, htest]
        simp
      · simp [setNodeBits, hc] at h; exact Or.inl h
  | succ L' ih =>
    intro c vis s h
    cases htest : ctx.test_node (L' + 1) c
    · rw [check_node_eq_outside ctx (L' + 1) c vis htest] at h; exact Or.inl h
    · rw [check_node_eq_inside ctx (L' + 1) c vis htest] at h
      by_cases hc : nodeContains (L' + 1) c s
      · exact Or.inr (Hin (L' + 1) c htest s hc)
      · simp [setNodeBits, hc] at h; exact Or.inl h
    · rw [check_node_eq_partial_succ ctx L' c vis htest] at h
      exact foldl_sound_generic _ _ (fun a v s' h' => ih a v s' h') _ _ _ h

/-- Completeness of `check_node`: a section inside the node whose
individual test is not `Outside` gets its bit set (assuming `Outside`
results are consistent). -/
theorem check_node_complete (ctx : LocalCoordContext)
    (Hout : ∀ L c, ctx.test_node L c = .Outside → ∀ s : u8x3, nodeContains L c s →
      ctx.test_node 0 (s.x.val, s.y.val, s.z.val) = .Outside) :
    ∀ (L : Nat) (c : Nat × Nat × Nat) (vis : u8x3 → Bool) (s : u8x3),
      nodeContains L c s →
      ctx.test_node 0 (s.x.val, s.y.val, s.z.val) ≠ .Outside →
      check_node ctx L c vis s = true := by
  intro L
  induction L with
  | zero =>
    intro c vis s hc hne
    cases htest : ctx.test_node 0 c
    · exact absurd (Hout 0 c htest s hc) hne
    · rw [check_node_eq_inside ctx 0 c vis htest]; simp [setNodeBits, hc]
    · rw [check_node_eq_partial_zero ctx c vis htest]; simp [setNodeBits, hc]
  | succ L' ih =>
    intro c vis s hc hne
    cases htest : ctx.test_node (L' + 1) c
    · exact absurd (Hout (L' + 1) c htest s hc) hne
    · rw [check_node_eq_inside ctx (L' + 1) c vis htest]; simp [setNodeBits, hc]
    · rw [check_node_eq_partial_succ ctx L' c vis htest]
      obtain ⟨c', hmem, hc'⟩ := nodeContains_child hc
      exact foldl_hit _ (fun v a s' h' => check_node_mono ctx L' a v s' h') c' s
        (fun v => ih c' v s hc' hne) _ _ hmem

/-- C3: assuming the coordinate context's `test_node` is consistent across
levels (`Inside` only if every contained section individually passes,
`Outside` only if none does, and the level-3 sweep covers every passing
section), the bit left in the visible bitmap by the hierarchical
`frustum_and_fog_cull` pass equals the result of testing the section
individually with `test_node` at level 0. -/
theorem C3_hierarchical_pass_equivalence (ctx : LocalCoordContext)
    (Hin : ∀ L c, ctx.test_node L c = .Inside → ∀ s : u8x3, nodeContains L c s →
      ctx.test_node 0 (s.x.val, s.y.val, s.z.val) ≠ .Outside)
    (Hout : ∀ L c, ctx.test_node L c = .Outside → ∀ s : u8x3, nodeContains L c s →
      ctx.test_node 0 (s.x.val, s.y.val, s.z.val) = .Outside)
    (Hcov : ∀ s : u8x3, ctx.test_node 0 (s.x.val, s.y.val, s.z.val) ≠ .Outside →
      ∃ n ∈ sweep_nodes ctx, nodeContains 3 n s)
    (s : u8x3) :
    frustum_and_fog_cull_bits ctx (fun _ => false) s = true ↔
      ctx.test_node 0 (s.x.val, s.y.val, s.z.val) ≠ .Outside := by
  constructor
  · intro h
    rcases foldl_sound_generic _ _
      (fun n v s' h' => check_node_sound ctx Hin 3 n v s' h')
      (sweep_nodes ctx) _ s h with h' | h'
    · simp at h'
    · exact h'
  · intro h
    obtain ⟨n, hmem, hc⟩ := Hcov s h
    exact foldl_hit _ (fun v a s' h' => check_node_mono ctx 3 a v s' h') n s
      (fun v => check_node_complete ctx Hout 3 n v s hc h) _ _ hmem

/-- The full 32-cube sweep of `ctx_all` covers every section. -/
theorem sweep_ctx_all_cover (s : u8x3) :
    ∃ n ∈ sweep_nodes ctx_all, nodeContains 3 n s := by
  have hx : s.x.val >>> 3 < 32 := by
    have := s.x.isLt; rw [Nat.shiftRight_eq_div_pow]; omega
  have hy : s.y.val >>> 3 < 32 := by
    have := s.y.isLt; rw [Nat.shiftRight_eq_div_pow]; omega
  have hz : s.z.val >>> 3 < 32 := by
    have := s.z.isLt; rw [Nat.shiftRight_eq_div_pow]; omega
  refine ⟨(s.x.val >>> 3, s.y.val >>> 3, s.z.val >>> 3), ?_, rfl, rfl, rfl⟩
  simp only [sweep_nodes, ctx_all, List.mem_flatMap, List.mem_map, List.mem_range]
  refine ⟨s.x.val >>> 3, hx, s.y.val >>> 3, hy, s.z.val >>> 3, hz, ?_⟩
  simp [Nat.mod_eq_of_lt hx, Nat.mod_eq_of_lt hy, Nat.mod_eq_of_lt hz]

/-- Witness for C3 at the everything-inside full-sweep context `ctx_all`,
applied to the section (0,0,0). -/
theorem C3_hierarchical_pass_equivalence_witness :
    (∀ L c, ctx_all.test_node L c = .Inside → ∀ s : u8x3, nodeContains L c s →
      ctx_all.test_node 0 (s.x.val, s.y.val, s.z.val) ≠ .Outside) ∧
    (∀ L c, ctx_all.test_node L c = .Outside → ∀ s : u8x3, nodeContains L c s →
      ctx_all.test_node 0 (s.x.val, s.y.val, s.z.val) = .Outside) ∧
    (∀ s : u8x3, ctx_all.test_node 0 (s.x.val, s.y.val, s.z.val) ≠ .Outside →
      ∃ n ∈ sweep_nodes ctx_all, nodeContains 3 n s) ∧
    (frustum_and_fog_cull_bits ctx_all (fun _ => false) ⟨0, 0, 0⟩ = true ↔
      ctx_all.test_node 0 (0, 0, 0) ≠ .Outside) := by
  have hin : ∀ L c, ctx_all.test_node L c = .Inside → ∀ s : u8x3,
      nodeContains L c s →
      ctx_all.test_node 0 (s.x.val, s.y.val, s.z.val) ≠ .Outside := by
    intro L c _ s _
    simp [ctx_all]
  have hout : ∀ L c, ctx_all.test_node L c = .Outside → ∀ s : u8x3,
      nodeContains L c s →
      ctx_all.test_node 0 (s.x.val, s.y.val, s.z.val) = .Outside := by
    intro L c h
    simp [ctx_all] at h
  have hcov : ∀ s : u8x3, ctx_all.test_node 0 (s.x.val, s.y.val, s.z.val) ≠ .Outside →
      ∃ n ∈ sweep_nodes ctx_all, nodeContains 3 n s :=
    fun s _ => sweep_ctx_all_cover s
  exact ⟨hin, hout, hcov,
    C3_hierarchical_pass_equivalence ctx_all hin hout hcov ⟨0, 0, 0⟩⟩

/-! ## Lemmas about the BFS staging state (C2) -/

/-- Generic preservation of a predicate along a left fold. -/
theorem foldl_preserve {σ α : Type} (P : σ → Prop) (f : σ → α → σ)
    (hf : ∀ st a, P st → P (f st a)) :
    ∀ (l : List α) (st : σ), P st → P (List.foldl f st l) := by
  intro l
  induction l with
  | nil => intro st h; simpa using h
  | cons a t ih => intro st h; exact ih _ (hf _ _ h)

/-- `touch_region` never changes the recorded sections of any slot. -/
theorem touch_region_sections (st : StagingRegionRenderLists)
    (ctx : LocalCoordContext) (c : u8x3) (lri : Nat) :
    ((st.touch_region ctx c).1.region_render_lists lri).sections =
      (st.region_render_lists lri).sections := by
  by_cases h : (st.region_render_lists (LocalRegionIndex.from_local_section c)).is_initialized
      = true
  · by_cases hl : lri = LocalRegionIndex.from_local_section c
    · subst hl
      simp [StagingRegionRenderLists.touch_region, h, Function.update_same,
        RegionRenderList.init]
    · simp [StagingRegionRenderLists.touch_region, h, Function.update_noteq hl]
  · simp [StagingRegionRenderLists.touch_region, h]

/-- `add_section_at` appends the given coordinate to the addressed slot
and leaves every other slot unchanged. -/
theorem add_section_at_sections (st : StagingRegionRenderLists) (i : Nat)
    (c : u8x3) (lri : Nat) :
    ((add_section_at st i c).region_render_lists lri).sections =
      if lri = i then (st.region_render_lists lri).sections ++ [c]
      else (st.region_render_lists lri).sections := by
  unfold add_section_at
  by_cases hl : lri = i
  · subst hl; simp [Function.update_same, RegionRenderList.add_section]
  · simp [Function.update_noteq hl, hl]

/-- `process_direction` does not touch the staging table. -/
theorem process_direction_staging (st : BfsState) (idx : u8x3)
    (d : GraphDirection) : (process_direction st idx d).staging = st.staging := by
  simp only [process_direction]
  split <;> rfl

/-- `process_section` preserves staging soundness. -/
theorem process_section_staging_sound (ctx : LocalCoordContext)
    (visData : u8x3 → VisibilityData) (vis : u8x3 → Bool)
    (modifier : GraphDirectionSet) (st : BfsState) (idx : u8x3)
    (h : StagingSound vis st.staging) :
    StagingSound vis (process_section ctx visData vis modifier st idx).staging := by
  have htouch : StagingSound vis (st.staging.touch_region ctx idx).1 := by
    intro lri s hs
    rw [touch_region_sections] at hs
    exact h lri s hs
  simp only [process_section]
  split
  · rename_i hv
    have hadd : StagingSound vis
        (add_section_at (st.staging.touch_region ctx idx).1
          (st.staging.touch_region ctx idx).2 idx) := by
      intro lri s hs
      rw [add_section_at_sections] at hs
      by_cases hl : lri = (st.staging.touch_region ctx idx).2
      · rw [if_pos hl] at hs
        rcases List.mem_append.mp hs with h' | h'
        · exact htouch lri s h'
        · simp at h'; subst h'; exact hv
      · rw [if_neg hl] at hs
        exact htouch lri s hs
    refine foldl_preserve (fun b : BfsState => StagingSound vis b.staging) _ ?_ _ _ hadd
    intro b a hb
    rw [process_direction_staging]
    exact hb
  · exact htouch

/-- The BFS loop preserves staging soundness. -/
theorem bfs_loop_staging_sound (ctx : LocalCoordContext)
    (visData : u8x3 → VisibilityData) (vis : u8x3 → Bool)
    (modifier : GraphDirectionSet) :
    ∀ (fuel : Nat) (read : List u8x3) (st : BfsState),
      StagingSound vis st.staging →
      StagingSound vis (bfs_loop ctx visData vis modifier fuel read st).1.staging := by
  intro fuel
  induction fuel with
  | zero => intro read st h; simpa [bfs_loop] using h
  | succ f ih =>
    intro read st h
    simp only [bfs_loop]
    split
    · exact h
    · exact ih _ _
        (foldl_preserve (fun b => StagingSound vis b.staging)
          (process_section ctx visData vis modifier) (fun b a hb =>
            process_section_staging_sound ctx visData vis modifier b a hb) read st h)

/-- Every region list produced by `compile_render_lists` is either one of
the initial results or the value of a staging slot. -/
theorem compile_render_lists_mem (st : StagingRegionRenderLists) :
    ∀ (l : List Nat) (acc : List RegionRenderList) (rl : RegionRenderList),
      rl ∈ l.foldl
        (fun acc' local_region_index =>
          if (st.region_render_lists local_region_index).is_empty then acc'
          else acc' ++ [st.region_render_lists local_region_index])
        acc →
      rl ∈ acc ∨ ∃ lri, rl = st.region_render_lists lri := by
  intro l
  induction l with
  | nil => intro acc rl h; exact Or.inl (by simpa using h)
  | cons a t ih =>
    intro acc rl h
    rcases ih _ rl h with h' | h'
    · simp only [] at h'
      by_cases he : (st.region_render_lists a).is_empty
      · rw [if_pos he] at h'; exact Or.inl h'
      · rw [if_neg he] at h'
        rcases List.mem_append.mp h' with h'' | h''
        · exact Or.inl h''
        · simp at h''; exact Or.inr ⟨a, h''⟩
    · exact Or.inr h'

/-- C2: for every call of `cull_and_sort` (entered with a clean visible
bitmap and empty staging buckets, as the per-frame lifecycle guarantees),
every section appearing in any region render list of the returned output
had its visible-bitmap bit set by the frustum-and-fog pass of that same
call. -/
theorem C2_membership_soundness (g : Graph) (ctx : LocalCoordContext)
    (use_occlusion_culling : Bool)
    (hbits : g.frustum_fog_cached_state.section_is_visible_bits = (fun _ => false))
    (hstag : ∀ lri,
      (g.bfs_cached_state.staging_render_lists.region_render_lists lri).sections = []) :
    ∀ rl ∈ (g.cull_and_sort ctx use_occlusion_culling).results, ∀ s ∈ rl.sections,
      frustum_and_fog_cull_bits ctx (fun _ => false) s = true := by
  intro rl hrl s hs
  have hsound0 : StagingSound
      (frustum_and_fog_cull_bits ctx (fun _ => false))
      g.bfs_cached_state.staging_render_lists := by
    intro lri s' hs'
    rw [hstag lri] at hs'
    simp at hs'
  have hsound : StagingSound (frustum_and_fog_cull_bits ctx (fun _ => false))
      ((({ g with results := [] } : Graph).frustum_and_fog_cull ctx).bfs_call ctx
        use_occlusion_culling).1.staging := by
    simp only [Graph.bfs_call, Graph.frustum_and_fog_cull, hbits]
    apply bfs_loop_staging_sound
    exact hsound0
  simp only [Graph.cull_and_sort, Graph.bfs_and_occlusion_cull, Graph.frustum_and_fog_cull,
    StagingRegionRenderLists.compile_render_lists] at hrl
  rcases compile_render_lists_mem _ _ _ _ hrl with h' | h'
  · simp at h'
  · obtain ⟨lri, hlri⟩ := h'
    subst hlri
    have := hsound lri s
    simp only [Graph.bfs_call, Graph.frustum_and_fog_cull] at this
    apply this
    simpa [hbits] using hs

/-- Witness for C2 on the ground graph with the everything-inside
context. -/
theorem C2_membership_soundness_witness :
    (Graph.ground.frustum_fog_cached_state.section_is_visible_bits = (fun _ => false)) ∧
    (∀ lri,
      (Graph.ground.bfs_cached_state.staging_render_lists.region_render_lists lri).sections
        = []) ∧
    (∀ rl ∈ (Graph.ground.cull_and_sort ctx_all true).results, ∀ s ∈ rl.sections,
      frustum_and_fog_cull_bits ctx_all (fun _ => false) s = true) :=
  ⟨rfl, fun _ => rfl,
    C2_membership_soundness Graph.ground ctx_all true rfl (fun _ => rfl)⟩

/-! ## Lemmas about BFS pushes and termination (C4) -/

/-- `process_direction` pushes to the write queue and the ghost log
together (the same, possibly empty, suffix). -/
theorem process_direction_write_log (st : BfsState) (idx : u8x3)
    (d : GraphDirection) :
    ∃ ns, (process_direction st idx d).write = st.write ++ ns ∧
      (process_direction st idx d).log = st.log ++ ns := by
  simp only [process_direction]
  split
  · exact ⟨[idx.neighbor d], rfl, rfl⟩
  · exact ⟨[], by simp, by simp⟩

/-- `process_direction` preserves the push-at-most-once invariant: the
push is gated on the neighbor's incoming set being empty, and that set
becomes (and stays) non-empty immediately after. -/
theorem process_direction_loginv (st : BfsState) (idx : u8x3)
    (d : GraphDirection) (h : BfsLogInv st) :
    BfsLogInv (process_direction st idx d) := by
  obtain ⟨hnodup, hlog, hwrite⟩ := h
  simp only [process_direction]
  split
  · rename_i hcond
    have hemp : st.incoming (idx.neighbor d) = ∅ := of_decide_eq_true hcond
    have hnotin : idx.neighbor d ∉ st.log := fun hmem => hlog _ hmem hemp
    refine ⟨?_, ?_, ?_⟩
    · simp [List.nodup_append, hnodup, hnotin]
    · intro n hn
      dsimp only at hn ⊢
      rcases List.mem_append.mp hn with hn' | hn'
      · by_cases hne : n = idx.neighbor d
        · subst hne; rw [Function.update_same]; exact Finset.insert_ne_empty _ _
        · rw [Function.update_noteq hne]; exact hlog n hn'
      · simp at hn'; subst hn'
        rw [Function.update_same]; exact Finset.insert_ne_empty _ _
    · intro n hn
      dsimp only at hn ⊢
      rcases List.mem_append.mp hn with hn' | hn'
      · exact List.mem_append.mpr (Or.inl (hwrite n hn'))
      · exact List.mem_append.mpr (Or.inr hn')
  · refine ⟨hnodup, ?_, hwrite⟩
    intro n hn
    dsimp only at hn ⊢
    by_cases hne : n = idx.neighbor d
    · subst hne; rw [Function.update_same]; exact Finset.insert_ne_empty _ _
    · rw [Function.update_noteq hne]; exact hlog n hn

/-- `process_section` preserves the push-at-most-once invariant. -/
theorem process_section_loginv (ctx : LocalCoordContext)
    (visData : u8x3 → VisibilityData) (vis : u8x3 → Bool)
    (modifier : GraphDirectionSet) (st : BfsState) (idx : u8x3)
    (h : BfsLogInv st) :
    BfsLogInv (process_section ctx visData vis modifier st idx) := by
  simp only [process_section]
  split
  · exact foldl_preserve BfsLogInv _
      (fun b a hb => process_direction_loginv b idx a hb) _ _ h
  · exact h

/-- `process_section` pushes to the write queue and the ghost log
together. -/
theorem process_section_write_log (ctx : LocalCoordContext)
    (visData : u8x3 → VisibilityData) (vis : u8x3 → Bool)
    (modifier : GraphDirectionSet) (st : BfsState) (idx : u8x3) :
    ∃ ns, (process_section ctx visData vis modifier st idx).write = st.write ++ ns ∧
      (process_section ctx visData vis modifier st idx).log = st.log ++ ns := by
  simp only [process_section]
  split
  · refine foldl_preserve
      (fun b : BfsState => ∃ ns, b.write = st.write ++ ns ∧ b.log = st.log ++ ns) _
      ?_ _ _ ⟨[], by simp, by simp⟩
    rintro b a ⟨ns, h1, h2⟩
    obtain ⟨ms, g1, g2⟩ := process_direction_write_log b idx a
    exact ⟨ns ++ ms, by rw [g1, h1, List.append_assoc],
      by rw [g2, h2, List.append_assoc]⟩
  · exact ⟨[], by simp, by simp⟩

/-- `process_queue` preserves the push-at-most-once invariant. -/
theorem process_queue_loginv (ctx : LocalCoordContext)
    (visData : u8x3 → VisibilityData) (vis : u8x3 → Bool)
    (modifier : GraphDirectionSet) (st : BfsState) (read : List u8x3)
    (h : BfsLogInv st) :
    BfsLogInv (process_queue ctx visData vis modifier st read) :=
  foldl_preserve BfsLogInv _
    (fun b a hb => process_section_loginv ctx visData vis modifier b a hb) read st h

/-- `process_queue` pushes to the write queue and the ghost log
together. -/
theorem process_queue_write_log (ctx : LocalCoordContext)
    (visData : u8x3 → VisibilityData) (vis : u8x3 → Bool)
    (modifier : GraphDirectionSet) (st : BfsState) (read : List u8x3) :
    ∃ ns, (process_queue ctx visData vis modifier st read).write = st.write ++ ns ∧
      (process_queue ctx visData vis modifier st read).log = st.log ++ ns := by
  refine foldl_preserve
    (fun b : BfsState => ∃ ns, b.write = st.write ++ ns ∧ b.log = st.log ++ ns) _
    ?_ read st ⟨[], by simp, by simp⟩
  rintro b a ⟨ns, h1, h2⟩
  obtain ⟨ms, g1, g2⟩ := process_section_write_log ctx visData vis modifier b a
  exact ⟨ns ++ ms, by rw [g1, h1, List.append_assoc],
    by rw [g2, h2, List.append_assoc]⟩

/-- The BFS loop preserves the push-at-most-once invariant. -/
theorem bfs_loop_loginv (ctx : LocalCoordContext)
    (visData : u8x3 → VisibilityData) (vis : u8x3 → Bool)
    (modifier : GraphDirectionSet) :
    ∀ (fuel : Nat) (read : List u8x3) (st : BfsState), BfsLogInv st →
      BfsLogInv (bfs_loop ctx visData vis modifier fuel read st).1 := by
  intro fuel
  induction fuel with
  | zero => intro read st h; simpa [bfs_loop] using h
  | succ f ih =>
    intro read st h
    simp only [bfs_loop]
    split
    · exact h
    · apply ih
      have h' := process_queue_loginv ctx visData vis modifier st read h
      exact ⟨h'.1, h'.2.1, fun n hn => absurd hn (List.not_mem_nil n)⟩

/-- There are exactly 2^24 sections in the 256-cube window. -/
theorem card_u8x3 : Fintype.card u8x3 = 16777216 := by
  have e : u8x3 ≃ Fin 256 × Fin 256 × Fin 256 :=
    ⟨fun c => (c.x, c.y, c.z), fun p => ⟨p.1, p.2.1, p.2.2⟩,
      fun c => rfl, fun p => rfl⟩
  rw [Fintype.card_congr e, Fintype.card_prod, Fintype.card_prod,
    Fintype.card_fin]

/-- With fuel exceeding the measure `(card + 1 - pushed) + |read|`, the
BFS loop reaches its natural exit: every productive outer iteration
consumes the whole read queue and every push extends the duplicate-free
log, which is bounded by the number of sections. -/
theorem bfs_loop_finishes (ctx : LocalCoordContext)
    (visData : u8x3 → VisibilityData) (vis : u8x3 → Bool)
    (modifier : GraphDirectionSet) :
    ∀ (fuel : Nat) (read : List u8x3) (st : BfsState), BfsLogInv st →
      st.write = [] →
      (Fintype.card u8x3 + 1 - st.log.length) + read.length < fuel →
      (bfs_loop ctx visData vis modifier fuel read st).2 = true := by
  intro fuel
  induction fuel with
  | zero => intro read st _ _ hm; omega
  | succ f ih =>
    intro read st hinv hw hm
    simp only [bfs_loop]
    split
    · rfl
    · rename_i hne
      have hinv' := process_queue_loginv ctx visData vis modifier st read hinv
      obtain ⟨ns, hw', hl'⟩ := process_queue_write_log ctx visData vis modifier st read
      apply ih
      · exact ⟨hinv'.1, hinv'.2.1, fun n hn => absurd hn (List.not_mem_nil n)⟩
      · rfl
      · have hlen : (process_queue ctx visData vis modifier st read).log.length ≤
            Fintype.card u8x3 := hinv'.1.length_le_card
        have hre : 1 ≤ read.length := by
          cases read
          · simp at hne
          · simp
        rw [hl'] at hlen
        simp only [hl', hw', hw, List.nil_append, List.length_append]
        simp only [List.length_append] at hlen
        omega

/-- C4: within one call of `bfs_and_occlusion_cull` (entered with both
queues at logical length zero, as the per-frame lifecycle guarantees),
every section is pushed onto a BFS queue at most once — the ghost log of
all pushes has no duplicates, because a push is gated on the neighbor's
empty incoming-direction set, which becomes and stays non-empty
immediately after — and consequently the BFS loop reaches its natural
exit within the provided fuel. -/
theorem C4_push_at_most_once_and_terminates (g : Graph)
    (ctx : LocalCoordContext) (use_occlusion_culling : Bool)
    (h1 : g.bfs_cached_state.queue_1 = [])
    (h2 : g.bfs_cached_state.queue_2 = []) :
    (g.bfs_call ctx use_occlusion_culling).1.log.Nodup ∧
    (g.bfs_call ctx use_occlusion_culling).2 = true := by
  have hinv : BfsLogInv
      { incoming :=
          Function.update g.bfs_cached_state.incoming_directions
            ctx.camera_section_index
            (g.bfs_cached_state.incoming_directions ctx.camera_section_index ∪
              GraphDirectionSet.ALL),
        staging := g.bfs_cached_state.staging_render_lists,
        write := g.bfs_cached_state.queue_2,
        log := [ctx.camera_section_index] } := by
    refine ⟨List.nodup_singleton _, ?_, ?_⟩
    · intro n hn
      simp at hn
      subst hn
      dsimp only
      rw [Function.update_same]
      intro hc
      rw [Finset.union_eq_empty] at hc
      exact Finset.univ_nonempty.ne_empty hc.2
    · intro n hn
      rw [h2] at hn
      exact absurd hn (List.not_mem_nil n)
  constructor
  · simp only [Graph.bfs_call]
    exact (bfs_loop_loginv _ _ _ _ BFS_FUEL _ _ hinv).1
  · simp only [Graph.bfs_call]
    apply bfs_loop_finishes _ _ _ _ BFS_FUEL _ _ hinv h2
    simp only [h1, List.nil_append, List.length_singleton, List.length_cons,
      List.length_nil, card_u8x3, BFS_FUEL]
    omega

/-- Witness for C4 on the ground graph with the minimal context. -/
theorem C4_push_at_most_once_and_terminates_witness :
    (Graph.ground.bfs_cached_state.queue_1 = []) ∧
    (Graph.ground.bfs_cached_state.queue_2 = []) ∧
    ((Graph.ground.bfs_call ctx0 true).1.log.Nodup ∧
      (Graph.ground.bfs_call ctx0 true).2 = true) :=
  ⟨rfl, rfl, C4_push_at_most_once_and_terminates Graph.ground ctx0 true rfl rfl⟩
